import Mathlib

/-!
Verification of the WhatsApp HTTP façade server (src/server.js): a shallow
embedding of the bounded in-memory message store with its id index, the SSE
subscriber fan-out, the connection-update state machine, recipient
normalization, and the HTTP handlers for /status, /messages and /send,
followed by theorems settling the specification claims.
-/

/-- Assoc-list model of a JS `Map` keyed by strings: `Map.get`. -/
def mapGet {A : Type} : List (String × A) → String → Option A
  | [], _ => none
  | p :: rest, k => if p.1 = k then some p.2 else mapGet rest k

/-- Assoc-list model of `Map.set`: overwrite in place when the key exists, else append. -/
def mapSet {A : Type} : List (String × A) → String → A → List (String × A)
  | [], k, v => [(k, v)]
  | p :: rest, k, v => if p.1 = k then (k, v) :: rest else p :: mapSet rest k v

/-- Assoc-list model of `Map.delete` (removes every binding of the key; a JS `Map`
holds at most one binding per key, and maps built with `mapSet` never duplicate keys,
so this agrees with `Map.delete` on every reachable map). -/
def mapDelete {A : Type} : List (String × A) → String → List (String × A)
  | [], _ => []
  | p :: rest, k => if p.1 = k then mapDelete rest k else p :: mapDelete rest k

/-- Message key of a transport event (`msg.key`), all fields possibly absent. -/
structure WAMsgKey where
  id : Option String
  remoteJid : Option String
  fromMe : Option Bool
deriving DecidableEq

/-- Message content (`msg.message`): the optional text-bearing sub-fields read by
`recordInbound`'s extraction chain, plus the object key list used for `messageType`
(`Object.keys(message)[0]`). -/
structure WAMsgContent where
  conversation : Option String
  extendedTextMessageText : Option String
  imageMessageCaption : Option String
  videoMessageCaption : Option String
  documentMessageCaption : Option String
  templateButtonReplyText : Option String
  listResponseRowId : Option String
  buttonsResponseButtonId : Option String
  keys : List String
deriving DecidableEq

/-- Raw inbound message event (`msg` in `recordInbound`). -/
structure WAMsg where
  key : Option WAMsgKey
  message : Option WAMsgContent
  pushName : Option String
deriving DecidableEq

/-- JS `a || b` on nullable strings: `null`, `undefined` and `""` are falsy. -/
def jsOrS : Option String → Option String → Option String
  | some s, b => if s = "" then b else some s
  | none, b => b

/-- Truthiness of a nullable string (`if (x)`): present and non-empty. -/
def truthyS : Option String → Bool
  | some s => decide (s ≠ "")
  | none => false

/-- Truthy value of a nullable id field, as an `Option`. -/
def idTruthy : Option String → Option String
  | some s => if s = "" then none else some s
  | none => none

/-- Text extraction fallback chain of `recordInbound` (a JS `||` chain ending in `null`). -/
def extractText (m : WAMsgContent) : Option String :=
  jsOrS m.conversation (jsOrS m.extendedTextMessageText (jsOrS m.imageMessageCaption
    (jsOrS m.videoMessageCaption (jsOrS m.documentMessageCaption
      (jsOrS m.templateButtonReplyText (jsOrS m.listResponseRowId
        (jsOrS m.buttonsResponseButtonId none)))))))

/-- The `key?.id` of a raw message. -/
def msgId (m : WAMsg) : Option String :=
  match m.key with
  | some k => k.id
  | none => none

/-- Record built by `recordInbound` and pushed onto `recentMessages`. -/
structure MsgItem where
  id : Option String
  remoteJid : Option String
  fromMe : Bool
  pushName : Option String
  timestamp : Nat
  text : Option String
  messageType : Option String
  raw : WAMsg
deriving DecidableEq

/-- Construction of the `item` object in `recordInbound` (lines 62-71). -/
def mkItem (m : WAMsg) (now : Nat) : MsgItem where
  id := msgId m
  remoteJid := match m.key with | some k => k.remoteJid | none => none
  fromMe := match m.key with | some k => k.fromMe.getD false | none => false
  pushName := jsOrS m.pushName none
  timestamp := now
  text := match m.message with | some c => extractText c | none => none
  messageType := match m.message with | some c => c.keys.head? | none => some "unknown"
  raw := m

/-- Capacity `MAX_RECENT` of the history ring buffer. -/
def MAX_RECENT : Nat := 200

/-- In-memory store: ordered `recentMessages` plus the `msgIndex` map from id to the
raw message (the index stores `msg`, not the built item). -/
structure MsgStore where
  recentMessages : List MsgItem
  msgIndex : List (String × WAMsg)
deriving DecidableEq

/-- Index update of `recordInbound`: `if (item.id) msgIndex.set(item.id, msg)`. -/
def idxAdd (idx : List (String × WAMsg)) (item : MsgItem) (m : WAMsg) : List (String × WAMsg) :=
  match idTruthy item.id with
  | some s => mapSet idx s m
  | none => idx

/-- Index cleanup on eviction: `if (removed?.id) msgIndex.delete(removed.id)`. -/
def idxDel (idx : List (String × WAMsg)) (removed : MsgItem) : List (String × WAMsg) :=
  match idTruthy removed.id with
  | some s => mapDelete idx s
  | none => idx

/-- Store mutation of `recordInbound` (lines 80-85): set the index entry, push the
item, and when the history exceeds `MAX_RECENT`, shift the oldest record and drop its
index entry. Returns the evicted record, if any. -/
def appendStore (st : MsgStore) (m : WAMsg) (now : Nat) : MsgStore × Option MsgItem :=
  let item := mkItem m now
  let idx1 := idxAdd st.msgIndex item m
  let rec1 := st.recentMessages ++ [item]
  if MAX_RECENT < rec1.length then
    match rec1 with
    | [] => ({ recentMessages := rec1, msgIndex := idx1 }, none)
    | removed :: rest => ({ recentMessages := rest, msgIndex := idxDel idx1 removed }, some removed)
  else ({ recentMessages := rec1, msgIndex := idx1 }, none)

/-- Run a sequence of appends (each message with its arrival time), collecting the
evicted records in order. -/
def runStoreFrom (st : MsgStore) : List (WAMsg × Nat) → MsgStore × List MsgItem
  | [] => (st, [])
  | (m, t) :: rest =>
    let step := appendStore st m t
    let r := runStoreFrom step.1 rest
    (r.1, step.2.toList ++ r.2)

/-- The store at boot. -/
def emptyStore : MsgStore := { recentMessages := [], msgIndex := [] }

/-- Run a sequence of appends from the empty store. -/
def runStore (msgs : List (WAMsg × Nat)) : MsgStore × List MsgItem :=
  runStoreFrom emptyStore msgs

/-- Truthy ids of the records currently in the history, in order. -/
def recentIds (st : MsgStore) : List String :=
  st.recentMessages.filterMap (fun it => idTruthy it.id)

/-- Truthy ids carried by a sequence of append inputs, in order. -/
def msgsIds (msgs : List (WAMsg × Nat)) : List String :=
  msgs.filterMap (fun p => idTruthy (msgId p.1))

/-- Lookup hook handed to the transport (`getMessage`): truthy id, then index lookup;
absent ids and missing entries yield `undefined`. -/
def getMessageHook (st : MsgStore) (key : Option WAMsgKey) : Option WAMsg :=
  match key with
  | some k =>
    match idTruthy k.id with
    | some s => mapGet st.msgIndex s
    | none => none
  | none => none

/-- SSE subscriber: registration id, whether its channel write throws, and the
payloads delivered to it so far, in order. `sseClients` is modelled as a list in
registration order (a JS `Set` iterates in insertion order). -/
structure SseClient (α : Type) where
  sid : Nat
  failing : Bool
  received : List α
deriving DecidableEq

/-- Fan-out loop `for (const res of sseClients) res.write(payload)`: delivers to each
subscriber in registration order; a throwing write stops the loop — the set is
untouched, nothing removes the subscriber. Returns the subscribers and `false`
exactly when a write threw. -/
def broadcastLoop {α : Type} : List (SseClient α) → α → List (SseClient α) × Bool
  | [], _ => ([], true)
  | s :: rest, p =>
    if s.failing then (s :: rest, false)
    else
      let r := broadcastLoop rest p
      ({ s with received := s.received ++ [p] } :: r.1, r.2)

/-- Broadcast a sequence of events, in the order they were generated. -/
def runBroadcasts {α : Type} (subs : List (SseClient α)) : List α → List (SseClient α)
  | [] => subs
  | e :: es => runBroadcasts (broadcastLoop subs e).1 es

/-- Server state touched by `recordInbound`: the message store, the SSE clients
(payload of a `message` event modelled by the item it serializes), and the webhook
dispatch attempts. -/
structure ServerState where
  store : MsgStore
  subs : List (SseClient MsgItem)
  webhookAttempts : List MsgItem
deriving DecidableEq

/-- Model of `recordInbound`: build the item, update index and history, fan the SSE
`message` event out, then fire-and-forget the webhook when `WEBHOOK_URL` is truthy.
The whole body runs in `try/catch`; the modelled throw site is a subscriber write,
after which the catch swallows the error — state mutated so far is kept, the webhook
dispatch is skipped — and the function returns normally. -/
def recordInbound (webhookUrl : String) (st : ServerState) (m : WAMsg) (now : Nat) :
    ServerState :=
  let item := mkItem m now
  let app := appendStore st.store m now
  let bc := broadcastLoop st.subs item
  if bc.2 then
    if webhookUrl = "" then
      { store := app.1, subs := bc.1, webhookAttempts := st.webhookAttempts }
    else
      { store := app.1, subs := bc.1, webhookAttempts := st.webhookAttempts ++ [item] }
  else { store := app.1, subs := bc.1, webhookAttempts := st.webhookAttempts }

/-- messages.upsert handler: a non-array batch is ignored; otherwise each message of
the batch is recorded in order when the batch type is `notify`. -/
def upsertHandler (webhookUrl : String) (st : ServerState) (type : String)
    (msgs : Option (List (WAMsg × Nat))) : ServerState :=
  match msgs with
  | none => st
  | some ms =>
    ms.foldl (fun s p => if type = "notify" then recordInbound webhookUrl s p.1 p.2 else s) st

/-- Connection field of a `connection.update` event. -/
inductive ConnStatus where
  | connecting
  | opened
  | closed
deriving DecidableEq

/-- Connection-update event payload: `connection`, the disconnect status code
(`lastDisconnect?.error?.output?.statusCode`), the `qr` string, and the socket's own
identity (`sock.user`) read when the connection opens. -/
structure ConnUpdate where
  connection : Option ConnStatus
  statusCode : Option Nat
  qr : Option String
  user : Option String
deriving DecidableEq

/-- Session status variables `latestQR`, `isConnected`, `me`. -/
structure SessState where
  latestQR : Option String
  isConnected : Bool
  me : Option String
deriving DecidableEq

/-- Session state at boot. -/
def initSessState : SessState := { latestQR := none, isConnected := false, me := none }

/-- State change of the `connection.update` handler (lines 146-200): a `qr` field
overwrites `latestQR`; `open` sets `isConnected`, clears `latestQR` and records `me`;
`close` only clears `isConnected` — neither `me` nor `latestQR` is touched. -/
def applyUpdate (st : SessState) (u : ConnUpdate) : SessState :=
  let st1 := match u.qr with
    | some q => { st with latestQR := some q }
    | none => st
  match u.connection with
  | some ConnStatus.opened => { st1 with isConnected := true, latestQR := none, me := u.user }
  | some ConnStatus.closed => { st1 with isConnected := false }
  | _ => st1

/-- Run a sequence of connection updates from boot. -/
def runUpdates (us : List ConnUpdate) : SessState := us.foldl applyUpdate initSessState

/-- Body of the GET /status response. -/
structure StatusResp where
  connected : Bool
  me : Option String
  hasQR : Bool
deriving DecidableEq

/-- GET /status handler: `{ connected: isConnected, me, hasQR: !!latestQR }`. -/
def statusHandler (st : SessState) : StatusResp :=
  { connected := st.isConnected, me := st.me, hasQR := st.latestQR.isSome }

/-- Condition on an update sequence: no update strictly after an open-carrying update
carries a qr, unless that later update is itself open-carrying (in which case the
open branch clears the qr again). -/
def qrAfterOpenFree : List ConnUpdate → Bool
  | [] => true
  | u :: rest =>
    (if u.connection = some ConnStatus.opened
      then rest.all (fun v => decide (v.qr = none) || decide (v.connection = some ConnStatus.opened))
      else true)
    && qrAfterOpenFree rest

/-- Baileys `DisconnectReason.loggedOut` (constant of the external transport library). -/
def DisconnectReasonLoggedOut : Nat := 401

/-- Close branch of the `connection.update` handler (lines 169-199): clears
`isConnected`, then calls `startSock()` exactly once unless the status code is
`loggedOut`; a rejection of that retry is swallowed by `.catch` (logged), so the
state stays disconnected and no further attempt is made. The retry outcome is a
parameter; the pair returned is the new state and the number of `startSock` calls. -/
def handleClose (st : SessState) (statusCode : Option Nat) (retryOutcome : Except Unit Unit) :
    SessState × Nat :=
  let st' := { st with isConnected := false }
  if statusCode = some DisconnectReasonLoggedOut then (st', 0)
  else
    match retryOutcome with
    | Except.ok _ => (st', 1)
    | Except.error _ => (st', 1)

/-- Characters kept by `replace(/[^\d]/g, '')`. -/
def filterDigits (s : String) : String := String.mk (s.data.filter (fun c => c.isDigit))

/-- The `/@/.test(to)` check. -/
def containsAt (s : String) : Bool := s.data.any (fun c => c == '@')

/-- Split a character list at the first `@` into user and server parts. -/
def jidDecodeUser : List Char → Option (List Char × List Char)
  | [] => none
  | c :: rest =>
    if c = '@' then some ([], rest)
    else
      match jidDecodeUser rest with
      | some p => some (c :: p.1, p.2)
      | none => none

/-- Modelled from the spec: `jidNormalizedUser` of the external Baileys transport
library, which decodes `user@server` and re-encodes it, mapping the legacy `c.us`
server to `s.whatsapp.net`; on `digits@s.whatsapp.net` inputs it is the identity
(device/agent suffixes of the user part never occur in the digit strings built by
`normalizeJid`). -/
def jidNormalizedUser (jid : String) : String :=
  match jidDecodeUser jid.data with
  | some p =>
    String.mk p.1 ++ "@" ++ (if String.mk p.2 = "c.us" then "s.whatsapp.net" else String.mk p.2)
  | none => jid

/-- normalizeJid (lines 276-283): `@`-containing inputs pass through; otherwise strip
non-digits, reject an empty remainder by throwing `invalid_recipient`, and qualify
the digits as a direct-message JID. -/
def normalizeJid (toAddr : String) : Except String String :=
  if containsAt toAddr then Except.ok toAddr
  else
    let digits := filterDigits toAddr
    if digits = "" then Except.error "invalid_recipient"
    else Except.ok (jidNormalizedUser (digits ++ "@s.whatsapp.net"))

/-- JSON body of POST /send. -/
structure SendBody where
  toAddr : Option String
  message : Option String
deriving DecidableEq

/-- Response of POST /send: 400 `to_and_message_required`, 503 `socket_not_ready`,
200 `{ok:true, id, to}`, or 500 `{ok:false, error:'send_failed'}`. -/
inductive SendResp where
  | badRequest
  | notReady
  | okSent (id : Option String) (toAddr : String)
  | sendFailed
deriving DecidableEq

/-- POST /send handler (lines 286-300): 400 when either field is falsy, 503 when
`sock` is null — the connection state `isConnected` is never consulted — otherwise
normalize and delegate to the transport inside the try/catch; any throw, including
`invalid_recipient` from `normalizeJid`, lands in the catch-all and yields the 500
`send_failed` response. The transport call is a parameter returning the new message
id (`result?.key?.id`). -/
def sendHandler (body : Option SendBody) (sockPresent : Bool) (isConnected : Bool)
    (send : String → Except Unit (Option String)) : SendResp :=
  let toAddr := match body with | some b => b.toAddr | none => none
  let message := match body with | some b => b.message | none => none
  if !truthyS toAddr || !truthyS message then SendResp.badRequest
  else if !sockPresent then SendResp.notReady
  else
    match normalizeJid (toAddr.getD "") with
    | Except.error _ => SendResp.sendFailed
    | Except.ok jid =>
      match send jid with
      | Except.ok mid => SendResp.okSent mid jid
      | Except.error _ => SendResp.sendFailed

/-- `arr.slice(-n)` on the history: the last `n` records (everything when `n` exceeds
the length). -/
def sliceLast {α : Type} (l : List α) (n : Nat) : List α := l.drop (l.length - n)

/-- The limit computation of GET /messages:
`Math.max(1, Math.min(Number(req.query.limit) || 50, MAX_RECENT))`. The query value
is the integer value of `Number(...)`, `none` when `NaN` (absent or non-numeric). -/
def parseLimit (q : Option Int) : Int :=
  let n : Int := match q with
    | none => 50
    | some v => if v = 0 then 50 else v
  max 1 (min n (MAX_RECENT : Int))

/-- GET /messages handler: `recentMessages.slice(-limit)`. -/
def messagesHandler (st : MsgStore) (q : Option Int) : List MsgItem :=
  sliceLast st.recentMessages (parseLimit q).toNat

/-! Basic lemmas about the assoc-list map operations. -/

theorem mapGet_mapSet {A : Type} (m : List (String × A)) (k : String) (v : A) (i : String) :
    mapGet (mapSet m k v) i = if i = k then some v else mapGet m i := by
  induction m with
  | nil =>
    rcases eq_or_ne k i with h | h
    · subst h; simp [mapSet, mapGet]
    · simp [mapSet, mapGet, h, h.symm]
  | cons p rest ih =>
    rcases eq_or_ne p.1 k with hpk | hpk
    · rcases eq_or_ne k i with hki | hki
      · subst hki; simp [mapSet, mapGet, hpk]
      · simp [mapSet, mapGet, hpk, hki, hki.symm]
    · rcases eq_or_ne p.1 i with hpi | hpi
      · have hik : i ≠ k := by
          intro hh
          exact hpk (hpi.trans hh)
        simp [mapSet, mapGet, hpk, hpi, hik]
      · simp [mapSet, mapGet, hpk, hpi, ih]

theorem mapGet_mapDelete {A : Type} (m : List (String × A)) (k : String) (i : String) :
    mapGet (mapDelete m k) i = if i = k then none else mapGet m i := by
  induction m with
  | nil => simp [mapGet, mapDelete]
  | cons p rest ih =>
    rcases eq_or_ne p.1 k with hpk | hpk
    · rcases eq_or_ne k i with hki | hki
      · subst hki; simp [mapDelete, hpk, ih]
      · simp [mapDelete, mapGet, hpk, hki, hki.symm, ih]
    · rcases eq_or_ne p.1 i with hpi | hpi
      · have hik : i ≠ k := by
          intro hh
          exact hpk (hpi.trans hh)
        simp [mapDelete, mapGet, hpk, hpi, hik]
      · simp [mapDelete, mapGet, hpk, hpi, ih]

/-! Lemmas about `sliceLast` and `parseLimit`. -/

theorem sliceLast_length {α : Type} (l : List α) (n : Nat) :
    (sliceLast l n).length = min n l.length := by
  simp only [sliceLast, List.length_drop]
  omega

theorem sliceLast_suffix {α : Type} (l : List α) (n : Nat) : (sliceLast l n).IsSuffix l :=
  List.drop_suffix _ _

theorem parseLimit_bounds (q : Option Int) : 1 ≤ parseLimit q ∧ parseLimit q ≤ 200 := by
  rcases q with _ | v
  · simp [parseLimit, MAX_RECENT]
  · simp only [parseLimit, MAX_RECENT]
    by_cases hv : v = 0
    · simp [hv]
    · simp only [hv, if_false]
      omega

theorem parseLimit_default : parseLimit none = 50 := by decide

/-- C7: the claim is corrected. GET /messages returns exactly
`min(limit_clamped, size)` records, newest last, as a suffix of the history; the
limit is clamped to `[1, MAX_RECENT]`; an absent or non-numeric (`NaN`) limit — and a
limit of `0` — falls back to the default 50; but an out-of-range numeric limit is
clamped to the nearest bound (1 or 200), it does not fall back to 50. No request
returns more than `MAX_RECENT` records. -/
theorem c7_messages_clamped (st : MsgStore) (q : Option Int) :
    (1 ≤ parseLimit q ∧ parseLimit q ≤ (MAX_RECENT : Int))
      ∧ parseLimit none = 50 ∧ parseLimit (some 0) = 50
      ∧ (messagesHandler st q).length = min (parseLimit q).toNat st.recentMessages.length
      ∧ (messagesHandler st q).IsSuffix st.recentMessages
      ∧ (messagesHandler st q).length ≤ MAX_RECENT := by
  obtain ⟨h1, h2⟩ := parseLimit_bounds q
  refine ⟨⟨h1, h2⟩, parseLimit_default, by decide, sliceLast_length _ _, sliceLast_suffix _ _, ?_⟩
  simp only [messagesHandler]
  rw [sliceLast_length]
  have hle : (parseLimit q).toNat ≤ 200 := by omega
  simp only [MAX_RECENT]
  omega

/-- C7 counterexample: with 60 stored records, `GET /messages?limit=9999` uses the
clamped limit 200 and returns all 60 records, not the 50 that a fallback to the
default would produce. -/
theorem c7_cex_limit_9999_not_default :
    parseLimit (some 9999) = 200
      ∧ (messagesHandler
          { recentMessages := List.replicate 60 (mkItem ⟨none, none, none⟩ 0), msgIndex := [] }
          (some 9999)).length = 60 := by
  constructor
  · decide
  · simp [messagesHandler, sliceLast, parseLimit, MAX_RECENT]

/-- C6: confirmed. On a connection-close event the handler always leaves the session
disconnected, and makes exactly one automatic `startSock()` retry when and only when
the disconnect status code differs from `DisconnectReason.loggedOut`; when that
single retry rejects, the `.catch` swallows the failure, the state is the same
disconnected state, and no second attempt is made (the call count is still 1). -/
theorem c6_reconnect_policy (st : SessState) (statusCode : Option Nat)
    (retryOutcome : Except Unit Unit) :
    handleClose st statusCode retryOutcome =
      ({ st with isConnected := false },
        if statusCode = some DisconnectReasonLoggedOut then 0 else 1) := by
  rcases retryOutcome with _ | _ <;>
    by_cases h : statusCode = some DisconnectReasonLoggedOut <;>
      simp [handleClose, h]

/-! Lemmas about the SSE fan-out loop. -/

theorem sseClient_append_nil {α : Type} (s : SseClient α) :
    ({ s with received := s.received ++ [] } : SseClient α) = s := by
  cases s
  simp

theorem broadcastLoop_ok {α : Type} (subs : List (SseClient α)) (e : α)
    (h : ∀ s ∈ subs, s.failing = false) :
    broadcastLoop subs e =
      (subs.map (fun s => { s with received := s.received ++ [e] }), true) := by
  induction subs with
  | nil => simp [broadcastLoop]
  | cons s rest ih =>
    have hs : s.failing = false := h s (by simp)
    have hr : ∀ x ∈ rest, x.failing = false := fun x hx => h x (by simp [hx])
    simp [broadcastLoop, hs, ih hr]

theorem broadcastLoop_length {α : Type} (subs : List (SseClient α)) (e : α) :
    (broadcastLoop subs e).1.length = subs.length := by
  induction subs with
  | nil => simp [broadcastLoop]
  | cons s rest ih =>
    by_cases hs : s.failing <;> simp [broadcastLoop, hs, ih]

theorem runBroadcasts_ok {α : Type} (events : List α) :
    ∀ subs : List (SseClient α), (∀ s ∈ subs, s.failing = false) →
      runBroadcasts subs events =
        subs.map (fun s => { s with received := s.received ++ events }) := by
  induction events with
  | nil =>
    intro subs _
    simp [runBroadcasts, sseClient_append_nil]
  | cons e es ih =>
    intro subs h
    rw [runBroadcasts, broadcastLoop_ok subs e h]
    have h' : ∀ s ∈ subs.map (fun s => { s with received := s.received ++ [e] }),
        s.failing = false := by
      intro s hs
      rcases List.mem_map.mp hs with ⟨x, hx, rfl⟩
      exact h x hx
    rw [ih _ h', List.map_map]
    refine List.map_congr_left (fun s _ => ?_)
    simp

/-- C4 amended claim: corrected. When no subscriber's channel write fails, every
broadcast event is delivered to every registered subscriber in registration order
and the events arrive in generation order (each subscriber's delivered list is
extended by exactly the event sequence). However, the loop has no per-subscriber
failure isolation: nothing ever removes a subscriber from the set during
broadcast (the subscriber count is always preserved), and a write failure aborts
that event's delivery loop, so subscribers after the failing one do not receive
the event. -/
theorem c4_broadcast_order {α : Type} (subs : List (SseClient α)) (events : List α)
    (h : ∀ s ∈ subs, s.failing = false) :
    runBroadcasts subs events =
        subs.map (fun s => { s with received := s.received ++ events })
      ∧ ∀ (subs2 : List (SseClient α)) (e : α),
          (broadcastLoop subs2 e).1.length = subs2.length :=
  ⟨runBroadcasts_ok events subs h, fun subs2 e => broadcastLoop_length subs2 e⟩

/-- C4 witness: two healthy subscribers receive both events in order. -/
theorem c4_broadcast_order_witness :
    (∀ s ∈ [⟨0, false, ([] : List String)⟩, ⟨1, false, []⟩], SseClient.failing s = false)
      ∧ (runBroadcasts [⟨0, false, ([] : List String)⟩, ⟨1, false, []⟩] ["a", "b"] =
            [⟨0, false, ["a", "b"]⟩, ⟨1, false, ["a", "b"]⟩]
          ∧ ∀ (subs2 : List (SseClient String)) (e : String),
              (broadcastLoop subs2 e).1.length = subs2.length) := by
  refine ⟨by decide, ?_⟩
  have h := c4_broadcast_order [⟨0, false, ([] : List String)⟩, ⟨1, false, []⟩] ["a", "b"]
    (by decide)
  exact ⟨by rw [h.1]; decide, h.2⟩

/-- C4 counterexample: with subscribers `[s0 (failing), s1]`, broadcasting one event
leaves the registry unchanged — `s0` is not removed, and `s1` never receives the
event — refuting the claim that a write failure removes the failing subscriber and
does not prevent delivery to the remaining ones. -/
theorem c4_cex_failing_write_blocks_rest :
    broadcastLoop [⟨0, true, ([] : List String)⟩, ⟨1, false, []⟩] "e1" =
        ([⟨0, true, []⟩, ⟨1, false, []⟩], false)
      ∧ ((broadcastLoop [⟨0, true, ([] : List String)⟩, ⟨1, false, []⟩] "e1").1.map
            (fun s => s.received)) = [[], []] := by
  constructor <;> decide

/-! Lemmas about the connection-update state machine. -/

theorem applyUpdate_of_opened (st : SessState) (u : ConnUpdate)
    (h : u.connection = some ConnStatus.opened) :
    applyUpdate st u = { latestQR := none, isConnected := true, me := u.user } := by
  rcases hq : u.qr with _ | q <;> simp [applyUpdate, h, hq]

theorem applyUpdate_me_of_not_opened (st : SessState) (u : ConnUpdate)
    (h : u.connection ≠ some ConnStatus.opened) :
    (applyUpdate st u).me = st.me := by
  rcases hc : u.connection with _ | c
  · rcases hq : u.qr with _ | q <;> simp [applyUpdate, hc, hq]
  · cases c
    · rcases hq : u.qr with _ | q <;> simp [applyUpdate, hc, hq]
    · exact absurd hc h
    · rcases hq : u.qr with _ | q <;> simp [applyUpdate, hc, hq]

theorem applyUpdate_qr_of_none (st : SessState) (u : ConnUpdate) (hq : u.qr = none)
    (h : u.connection ≠ some ConnStatus.opened) :
    (applyUpdate st u).latestQR = st.latestQR := by
  rcases hc : u.connection with _ | c
  · simp [applyUpdate, hc, hq]
  · cases c
    · simp [applyUpdate, hc, hq]
    · exact absurd hc h
    · simp [applyUpdate, hc, hq]

theorem qrFree_aux (us : List ConnUpdate) : ∀ st : SessState,
    qrAfterOpenFree us = true →
    (st.latestQR.isSome = false ∨ st.me.isSome = false) →
    (st.me.isSome = true →
      us.all (fun v =>
        decide (v.qr = none) || decide (v.connection = some ConnStatus.opened)) = true) →
    ((us.foldl applyUpdate st).latestQR.isSome = false
      ∨ (us.foldl applyUpdate st).me.isSome = false) := by
  induction us with
  | nil =>
    intro st _ h2 _
    exact h2
  | cons u rest ih =>
    intro st h1 h2 h3
    rw [List.foldl_cons]
    simp only [qrAfterOpenFree, Bool.and_eq_true] at h1
    by_cases hc : u.connection = some ConnStatus.opened
    · refine ih (applyUpdate st u) h1.2 ?_ ?_
      · left
        rw [applyUpdate_of_opened st u hc]
        simp
      · intro _
        have := h1.1
        rw [if_pos hc] at this
        exact this
    · rcases hq : u.qr with _ | q
      · refine ih (applyUpdate st u) h1.2 ?_ ?_
        · rcases h2 with h2 | h2
          · left
            rw [applyUpdate_qr_of_none st u hq hc]
            exact h2
          · right
            rw [applyUpdate_me_of_not_opened st u hc]
            exact h2
        · intro hme
          rw [applyUpdate_me_of_not_opened st u hc] at hme
          have := h3 hme
          simp only [List.all_cons, Bool.and_eq_true] at this
          exact this.2
      · have hme : st.me.isSome = false := by
          by_contra hcon
          have hme' : st.me.isSome = true := by
            revert hcon
            cases st.me.isSome <;> simp
          have := h3 hme'
          simp only [List.all_cons, Bool.and_eq_true] at this
          rcases Bool.or_eq_true_iff.mp this.1 with hbad | hbad
          · rw [hq] at hbad
            exact absurd (of_decide_eq_true hbad) (by simp)
          · exact absurd (of_decide_eq_true hbad) hc
        refine ih (applyUpdate st u) h1.2 ?_ ?_
        · right
          rw [applyUpdate_me_of_not_opened st u hc]
          exact hme
        · intro hcon
          rw [applyUpdate_me_of_not_opened st u hc] at hcon
          rw [hme] at hcon
          cases hcon

/-- C2 amended claim: corrected. Entering `Open` does clear the pairing payload, so
for every transport event sequence in which no pairing payload arrives strictly
after an open event (other than on an update that itself opens the connection),
`currentStatus()` never reports both a pairing payload and a non-null identity.
However, a pairing-payload event does NOT clear a stale identity — the handler
leaves `me` untouched on a `qr` update — so the exclusivity can be violated after
an open, close, and renewed pairing. -/
theorem c2_status_exclusive (us : List ConnUpdate) (h : qrAfterOpenFree us = true) :
    (statusHandler (runUpdates us)).hasQR = false
      ∨ (statusHandler (runUpdates us)).me = none := by
  have := qrFree_aux us initSessState h (by right; simp [initSessState])
    (by intro hcon; simp [initSessState] at hcon)
  rcases this with h' | h'
  · left
    simpa [statusHandler, runUpdates] using h'
  · right
    have : (runUpdates us).me = none :=
      Option.not_isSome_iff_eq_none.mp (by simp [runUpdates, h'])
    simpa [statusHandler] using this

/-- C2 witness: pairing payload then open — the status after the run shows no QR. -/
theorem c2_status_exclusive_witness :
    qrAfterOpenFree
        [⟨none, none, some "Q", none⟩, ⟨some ConnStatus.opened, none, none, some "u"⟩] = true
      ∧ ((statusHandler (runUpdates
          [⟨none, none, some "Q", none⟩,
           ⟨some ConnStatus.opened, none, none, some "u"⟩])).hasQR = false
        ∨ (statusHandler (runUpdates
          [⟨none, none, some "Q", none⟩,
           ⟨some ConnStatus.opened, none, none, some "u"⟩])).me = none) :=
  ⟨by decide, c2_status_exclusive _ (by decide)⟩

/-- C2 counterexample: after open (identity recorded), close, and a fresh pairing
payload, `GET /status` reports `hasQR = true` together with a non-null `me` — the
handler never clears the stale identity when a new pairing payload arrives. -/
theorem c2_cex_qr_after_open :
    statusHandler (runUpdates
      [⟨some ConnStatus.opened, none, none, some "self"⟩,
       ⟨some ConnStatus.closed, some 408, none, none⟩,
       ⟨none, none, some "QR2", none⟩]) =
      { connected := false, me := some "self", hasQR := true } := by decide

/-! Lemmas about recipient normalization and the send handler. -/

theorem jidDecodeUser_append (u srv : List Char) (hu : '@' ∉ u) :
    jidDecodeUser (u ++ '@' :: srv) = some (u, srv) := by
  induction u with
  | nil => simp [jidDecodeUser]
  | cons c cs ih =>
    have hc : c ≠ '@' := fun h => hu (by simp [h])
    have hcs : '@' ∉ cs := fun h => hu (by simp [h])
    simp [jidDecodeUser, hc, ih hcs]

theorem filterDigits_no_at (s : String) : '@' ∉ (filterDigits s).data := by
  intro h
  simp only [filterDigits] at h
  have := List.of_mem_filter h
  exact absurd this (by decide)

theorem jidNormalizedUser_digits (d : String) (hd : '@' ∉ d.data) :
    jidNormalizedUser (d ++ "@s.whatsapp.net") = d ++ "@s.whatsapp.net" := by
  have hdata : (d ++ "@s.whatsapp.net").data = d.data ++ ('@' :: "s.whatsapp.net".data) := rfl
  have hdec : jidDecodeUser (d ++ "@s.whatsapp.net").data
      = some (d.data, "s.whatsapp.net".data) := by
    rw [hdata]
    exact jidDecodeUser_append d.data _ hd
  simp only [jidNormalizedUser, hdec]
  have hne : String.mk "s.whatsapp.net".data ≠ "c.us" := by decide
  rw [if_neg hne]
  have h1 : String.mk "s.whatsapp.net".data = "s.whatsapp.net" := rfl
  have h2 : String.mk d.data = d := by cases d; rfl
  rw [h1, h2, String.append_assoc]
  have h3 : ("@" : String) ++ "s.whatsapp.net" = "@s.whatsapp.net" := by decide
  rw [h3]

theorem normalizeJid_digits (toAddr : String) (h1 : containsAt toAddr = false)
    (h2 : filterDigits toAddr ≠ "") :
    normalizeJid toAddr = Except.ok (filterDigits toAddr ++ "@s.whatsapp.net") := by
  simp only [normalizeJid, h1, Bool.false_eq_true, if_false, h2, if_neg h2]
  rw [jidNormalizedUser_digits _ (filterDigits_no_at toAddr)]

/-- C9: confirmed. `normalizeJid` leaves any `@`-containing input unchanged;
otherwise it strips all non-digit characters and, when the remainder is non-empty,
qualifies it as a direct-message JID ending in the direct-message domain suffix
`@s.whatsapp.net` (the external Baileys helper `jidNormalizedUser` is modelled from
the spec and is the identity on such inputs); an empty digit remainder fails with
`invalid_recipient`. -/
theorem c9_normalize_jid (toAddr : String) :
    (containsAt toAddr = true → normalizeJid toAddr = Except.ok toAddr)
      ∧ (containsAt toAddr = false → filterDigits toAddr ≠ "" →
          normalizeJid toAddr = Except.ok (filterDigits toAddr ++ "@s.whatsapp.net"))
      ∧ (containsAt toAddr = false → filterDigits toAddr = "" →
          normalizeJid toAddr = Except.error "invalid_recipient") := by
  refine ⟨fun h => by simp [normalizeJid, h], fun h1 h2 => normalizeJid_digits toAddr h1 h2,
    fun h1 h2 => ?_⟩
  simp [normalizeJid, h1, h2]

/-- C9 witness: the three scenario inputs of the spec. -/
theorem c9_normalize_jid_witness :
    normalizeJid "1234567890" = Except.ok "1234567890@s.whatsapp.net"
      ∧ normalizeJid "group@groupdomain" = Except.ok "group@groupdomain"
      ∧ normalizeJid "abc" = Except.error "invalid_recipient" := by
  refine ⟨?_, ?_, ?_⟩
  · have h := (c9_normalize_jid "1234567890").2.1 (by decide) (by decide)
    have he : filterDigits "1234567890" ++ "@s.whatsapp.net" = "1234567890@s.whatsapp.net" := by
      decide
    rw [he] at h
    exact h
  · exact (c9_normalize_jid "group@groupdomain").1 (by decide)
  · exact (c9_normalize_jid "abc").2.2 (by decide) (by decide)

/-- C8 amended claim: corrected. A `to` value without `@` and with a non-empty digit
remainder normalizes successfully; an empty digit remainder makes `normalizeJid`
throw `invalid_recipient`; but the /send handler's catch-all maps that failure to
the generic 500 `send_failed` response, NOT to a 400-class bad-request response. -/
theorem c8_invalid_recipient_response (toAddr msg : String) (isConn : Bool)
    (send : String → Except Unit (Option String)) :
    (containsAt toAddr = false → filterDigits toAddr ≠ "" →
        normalizeJid toAddr = Except.ok (filterDigits toAddr ++ "@s.whatsapp.net"))
      ∧ (containsAt toAddr = false → filterDigits toAddr = "" → toAddr ≠ "" → msg ≠ "" →
          normalizeJid toAddr = Except.error "invalid_recipient"
            ∧ sendHandler (some ⟨some toAddr, some msg⟩) true isConn send = SendResp.sendFailed
            ∧ SendResp.sendFailed ≠ SendResp.badRequest) := by
  refine ⟨fun h1 h2 => normalizeJid_digits toAddr h1 h2, fun h1 h2 h3 h4 => ?_⟩
  have hn : normalizeJid toAddr = Except.error "invalid_recipient" := by
    simp [normalizeJid, h1, h2]
  refine ⟨hn, ?_, by decide⟩
  simp [sendHandler, truthyS, h3, h4, hn]

/-- C8 witness: a phone-number input normalizes; "abc" yields `invalid_recipient`
and the handler answers with the 500 `send_failed` response. -/
theorem c8_invalid_recipient_response_witness :
    normalizeJid "+1 (555) 123-4567" = Except.ok (filterDigits "+1 (555) 123-4567" ++ "@s.whatsapp.net")
      ∧ (normalizeJid "abc" = Except.error "invalid_recipient"
          ∧ sendHandler (some ⟨some "abc", some "hi"⟩) true true (fun _ => Except.ok none) =
              SendResp.sendFailed
          ∧ SendResp.sendFailed ≠ SendResp.badRequest) :=
  ⟨(c8_invalid_recipient_response "+1 (555) 123-4567" "hi" true (fun _ => Except.ok none)).1
      (by decide) (by decide),
   (c8_invalid_recipient_response "abc" "hi" true (fun _ => Except.ok none)).2
      (by decide) (by decide) (by decide) (by decide)⟩

/-- C8 counterexample: `to = "abc"` (no `@`, empty digit remainder) with a live
socket yields the 500 `send_failed` response, not a 400-class response as the claim
requires. -/
theorem c8_cex_invalid_maps_to_send_failed :
    sendHandler (some ⟨some "abc", some "hi"⟩) true true (fun _ => Except.ok none) =
        SendResp.sendFailed
      ∧ SendResp.sendFailed ≠ SendResp.badRequest := by
  constructor <;> decide

/-- C3 amended claim: corrected. With both fields present, POST /send fails with the
503 `socket_not_ready` response exactly when the socket handle is absent — the
handler never consults whether the session is Open (`isConnected` is ignored), so a
present but unauthenticated socket is NOT answered with 503; when a socket is
present the request delegates to the transport, and on success returns
`{ok:true, id, to}` with the transport-assigned id and the normalized recipient. -/
theorem c3_send_gating (toAddr msg : String) (isConn : Bool)
    (send : String → Except Unit (Option String)) (h1 : toAddr ≠ "") (h2 : msg ≠ "") :
    sendHandler (some ⟨some toAddr, some msg⟩) false isConn send = SendResp.notReady
      ∧ sendHandler (some ⟨some toAddr, some msg⟩) true isConn send ≠ SendResp.notReady
      ∧ (∀ jid mid, normalizeJid toAddr = Except.ok jid → send jid = Except.ok mid →
          sendHandler (some ⟨some toAddr, some msg⟩) true isConn send =
            SendResp.okSent mid jid) := by
  refine ⟨by simp [sendHandler, truthyS, h1, h2], ?_, ?_⟩
  · simp only [sendHandler, truthyS, h1, h2]
    simp only [decide_not, Bool.not_false, Bool.or_self, Bool.not_true, Bool.false_or]
    rcases hn : normalizeJid toAddr with e | jid
    · simp [h1, h2, hn]
    · rcases hs : send jid with e | mid <;> simp [h1, h2, hn, hs]
  · intro jid mid hn hs
    simp [sendHandler, truthyS, h1, h2, hn, hs]

/-- C3 witness: the spec scenario `to:"+1 (555) 123-4567"`: 503 before any socket
exists; with a socket and a successful transport call, `{ok, id, to}` with the
normalized recipient `15551234567@s.whatsapp.net`. -/
theorem c3_send_gating_witness :
    sendHandler (some ⟨some "+1 (555) 123-4567", some "hello"⟩) false true
        (fun _ => Except.ok (some "MSGID")) = SendResp.notReady
      ∧ sendHandler (some ⟨some "+1 (555) 123-4567", some "hello"⟩) true true
        (fun _ => Except.ok (some "MSGID")) =
          SendResp.okSent (some "MSGID") "15551234567@s.whatsapp.net" :=
  ⟨(c3_send_gating "+1 (555) 123-4567" "hello" true (fun _ => Except.ok (some "MSGID"))
      (by decide) (by decide)).1,
   (c3_send_gating "+1 (555) 123-4567" "hello" true (fun _ => Except.ok (some "MSGID"))
      (by decide) (by decide)).2.2 "15551234567@s.whatsapp.net" (some "MSGID")
      rfl rfl⟩

/-- C3 counterexample: socket present but session not Open (`isConnected = false`,
no authenticated session): the handler does not answer 503 — it delegates to the
transport and reports the 500 `send_failed` when that call rejects, refuting
"if no Open session exists the request fails with a 503 NotReady response". -/
theorem c3_cex_no_503_without_open_session :
    sendHandler (some ⟨some "15551234567", some "hi"⟩) true false (fun _ => Except.error ()) =
        SendResp.sendFailed
      ∧ SendResp.sendFailed ≠ SendResp.notReady := by
  constructor <;> decide

/-! Lemmas about the bounded store and its index. -/

theorem filterMap_cons_toList {α β : Type} (f : α → Option β) (a : α) (l : List α) :
    (a :: l).filterMap f = (f a).toList ++ l.filterMap f := by
  cases h : f a <;> simp [List.filterMap_cons, h]

theorem recentIds_append_one (l : List MsgItem) (item : MsgItem) :
    (l ++ [item]).filterMap (fun it => idTruthy it.id) =
      l.filterMap (fun it => idTruthy it.id) ++ (idTruthy item.id).toList := by
  rw [List.filterMap_append]
  cases h : idTruthy item.id <;> simp [List.filterMap_cons, h]

theorem mkItem_id (m : WAMsg) (t : Nat) : (mkItem m t).id = msgId m := rfl

theorem appendStore_of_small (st : MsgStore) (m : WAMsg) (t : Nat)
    (h : st.recentMessages.length < MAX_RECENT) :
    appendStore st m t =
      ({ recentMessages := st.recentMessages ++ [mkItem m t],
         msgIndex := idxAdd st.msgIndex (mkItem m t) m }, none) := by
  have hlen : ¬ MAX_RECENT < st.recentMessages.length + 1 := by omega
  simp [appendStore, hlen]

theorem appendStore_of_full (r : MsgItem) (rs : List MsgItem) (idx : List (String × WAMsg))
    (m : WAMsg) (t : Nat) (h : MAX_RECENT ≤ (r :: rs).length) :
    appendStore ⟨r :: rs, idx⟩ m t =
      ({ recentMessages := rs ++ [mkItem m t],
         msgIndex := idxDel (idxAdd idx (mkItem m t) m) r }, some r) := by
  have h' : MAX_RECENT ≤ rs.length + 1 := by
    simpa using h
  have hlen : MAX_RECENT < rs.length + 1 + 1 := by omega
  simp [appendStore, hlen]

theorem mapGet_idxAdd_isSome (idx : List (String × WAMsg)) (item : MsgItem) (m : WAMsg)
    (i : String) :
    (mapGet (idxAdd idx item m) i).isSome = true ↔
      ((mapGet idx i).isSome = true ∨ i ∈ (idTruthy item.id).toList) := by
  cases h : idTruthy item.id with
  | none => simp [idxAdd, h]
  | some s =>
    simp only [idxAdd, h, Option.toList_some, List.mem_singleton]
    rw [mapGet_mapSet]
    by_cases hi : i = s <;> simp [hi]

theorem mapGet_idxDel_isSome (idx : List (String × WAMsg)) (removed : MsgItem) (i : String) :
    (mapGet (idxDel idx removed) i).isSome = true ↔
      ((mapGet idx i).isSome = true ∧ i ∉ (idTruthy removed.id).toList) := by
  cases h : idTruthy removed.id with
  | none => simp [idxDel, h]
  | some s =>
    simp only [idxDel, h, Option.toList_some, List.mem_singleton]
    rw [mapGet_mapDelete]
    by_cases hi : i = s <;> simp [hi]

/-- Consistency between the history and the index: an id is looked up successfully
exactly when some record in the ordered history carries it. -/
def indexMatches (st : MsgStore) : Prop :=
  ∀ i, (mapGet st.msgIndex i).isSome = true ↔ i ∈ recentIds st

theorem appendStore_inv (st : MsgStore) (m : WAMsg) (t : Nat)
    (hnd : (recentIds st ++ (idTruthy (msgId m)).toList).Nodup)
    (him : indexMatches st) (hlen : st.recentMessages.length ≤ MAX_RECENT) :
    indexMatches (appendStore st m t).1
      ∧ List.Sublist (recentIds (appendStore st m t).1)
          (recentIds st ++ (idTruthy (msgId m)).toList)
      ∧ (appendStore st m t).1.recentMessages.length ≤ MAX_RECENT
      ∧ (∀ e, (appendStore st m t).2 = some e → ∀ i, idTruthy e.id = some i →
          i ∈ recentIds st ∧ i ∉ recentIds (appendStore st m t).1) := by
  obtain ⟨rec, idx⟩ := st
  rcases Nat.lt_or_ge rec.length MAX_RECENT with hsm | hfull
  · rw [appendStore_of_small ⟨rec, idx⟩ m t hsm]
    refine ⟨?_, ?_, ?_, ?_⟩
    · intro i
      have him' := him i
      simp only [recentIds] at him'
      rw [mapGet_idxAdd_isSome, him']
      simp only [recentIds, recentIds_append_one, mkItem_id, List.mem_append]
    · simp only [recentIds, recentIds_append_one, mkItem_id]
      exact List.Sublist.refl _
    · simp only [List.length_append, List.length_cons, List.length_nil]
      omega
    · intro e he
      exact absurd he (by simp)
  · rcases hrec : rec with _ | ⟨r, rs⟩
    · rw [hrec] at hfull
      rw [List.length_nil] at hfull
      exact absurd hfull (by decide)
    · subst hrec
      rw [appendStore_of_full r rs idx m t hfull]
      simp only [recentIds, filterMap_cons_toList] at hnd him ⊢
      have hassoc : ((idTruthy r.id).toList ++
          ((rs.filterMap fun it => idTruthy it.id) ++ (idTruthy (msgId m)).toList)).Nodup := by
        rw [← List.append_assoc]
        exact hnd
      have hD1 : List.Disjoint (idTruthy r.id).toList
          ((rs.filterMap fun it => idTruthy it.id) ++ (idTruthy (msgId m)).toList) :=
        List.disjoint_of_nodup_append hassoc
      have hnd23 : ((rs.filterMap fun it => idTruthy it.id) ++
          (idTruthy (msgId m)).toList).Nodup := List.Nodup.of_append_right hassoc
      have hD2 : List.Disjoint (rs.filterMap fun it => idTruthy it.id)
          (idTruthy (msgId m)).toList := List.disjoint_of_nodup_append hnd23
      refine ⟨?_, ?_, ?_, ?_⟩
      · intro i
        have him' := him i
        simp only [recentIds, filterMap_cons_toList, List.mem_append] at him'
        rw [mapGet_idxDel_isSome, mapGet_idxAdd_isSome, him']
        simp only [recentIds, recentIds_append_one, mkItem_id, List.mem_append]
        have hd1 : i ∈ (idTruthy r.id).toList →
            ¬ (i ∈ (rs.filterMap fun it => idTruthy it.id)
                ∨ i ∈ (idTruthy (msgId m)).toList) := by
          intro hi hor
          exact hD1 hi (List.mem_append.mpr hor)
        have hd2 : i ∈ (rs.filterMap fun it => idTruthy it.id) →
            i ∉ (idTruthy (msgId m)).toList := fun hi hj => hD2 hi hj
        tauto
      · simp only [recentIds_append_one, mkItem_id]
        exact List.Sublist.append_right
          (List.sublist_append_right (idTruthy r.id).toList _) _
      · simp only [List.length_append, List.length_cons, List.length_nil] at hlen ⊢
        omega
      · intro e he i hid
        have her : e = r := by
          injection he with h'
          exact h'.symm
        subst her
        have hir : i ∈ (idTruthy e.id).toList := by simp [hid]
        constructor
        · exact List.mem_append.mpr (Or.inl hir)
        · intro hin
          rw [recentIds_append_one, mkItem_id] at hin
          exact hD1 hir hin

theorem runStoreFrom_cons (st : MsgStore) (m : WAMsg) (t : Nat) (rest : List (WAMsg × Nat)) :
    runStoreFrom st ((m, t) :: rest) =
      ((runStoreFrom (appendStore st m t).1 rest).1,
        (appendStore st m t).2.toList ++ (runStoreFrom (appendStore st m t).1 rest).2) := rfl

theorem runStoreFrom_inv (msgs : List (WAMsg × Nat)) : ∀ st : MsgStore,
    (recentIds st ++ msgsIds msgs).Nodup → indexMatches st →
    st.recentMessages.length ≤ MAX_RECENT →
    indexMatches (runStoreFrom st msgs).1
      ∧ List.Sublist (recentIds (runStoreFrom st msgs).1) (recentIds st ++ msgsIds msgs)
      ∧ (runStoreFrom st msgs).1.recentMessages.length ≤ MAX_RECENT
      ∧ (∀ e ∈ (runStoreFrom st msgs).2, ∀ i, idTruthy e.id = some i →
          i ∉ recentIds (runStoreFrom st msgs).1) := by
  induction msgs with
  | nil =>
    intro st hnd him hlen
    exact ⟨him, by simp [runStoreFrom], hlen, by simp [runStoreFrom]⟩
  | cons p rest ih =>
    obtain ⟨m, t⟩ := p
    intro st hnd him hlen
    have hmsgs : msgsIds ((m, t) :: rest) = (idTruthy (msgId m)).toList ++ msgsIds rest := by
      simp only [msgsIds, filterMap_cons_toList]
    rw [runStoreFrom_cons, hmsgs]
    rw [hmsgs] at hnd
    have hnd' : ((recentIds st ++ (idTruthy (msgId m)).toList) ++ msgsIds rest).Nodup := by
      rw [List.append_assoc]
      exact hnd
    have hnd1 : (recentIds st ++ (idTruthy (msgId m)).toList).Nodup :=
      List.Nodup.sublist (List.sublist_append_left _ _) hnd'
    obtain ⟨sA, sB, sC, sD⟩ := appendStore_inv st m t hnd1 him hlen
    have hnd2 : (recentIds (appendStore st m t).1 ++ msgsIds rest).Nodup :=
      List.Nodup.sublist (List.Sublist.append_right sB (msgsIds rest)) hnd'
    obtain ⟨iA, iB, iC, iD⟩ := ih (appendStore st m t).1 hnd2 sA sC
    refine ⟨iA, ?_, iC, ?_⟩
    · rw [← List.append_assoc]
      exact iB.trans (List.Sublist.append_right sB (msgsIds rest))
    · intro e he i hid
      rcases List.mem_append.mp he with he1 | he2
      · have hsome : (appendStore st m t).2 = some e := by
          rcases hev : (appendStore st m t).2 with _ | ev
          · rw [hev] at he1
            simp at he1
          · rw [hev] at he1
            simp only [Option.toList_some, List.mem_singleton] at he1
            rw [he1]

        obtain ⟨hiIn, hiOut⟩ := sD e hsome i hid
        intro hifin
        have hmem : i ∈ recentIds (appendStore st m t).1 ++ msgsIds rest := iB.subset hifin
        rcases List.mem_append.mp hmem with h1 | h2
        · exact hiOut h1
        · have hdisj := List.disjoint_of_nodup_append hnd
          exact hdisj hiIn (List.mem_append.mpr (Or.inr h2))
      · exact iD e he2 i hid

theorem countP_eq_count_filterMap (l : List MsgItem) (i : String) :
    l.countP (fun it => decide (idTruthy it.id = some i)) =
      (l.filterMap (fun it => idTruthy it.id)).count i := by
  induction l with
  | nil => simp
  | cons a l ih =>
    rw [List.countP_cons, List.filterMap_cons]
    cases h : idTruthy a.id with
    | none => simp [h, ih]
    | some s =>
      rw [List.count_cons]
      by_cases hs : s = i
      · subst hs
        simp [h, ih]
      · simp [h, ih, hs, Ne.symm hs]

theorem runStore_inv (msgs : List (WAMsg × Nat)) (hnd : (msgsIds msgs).Nodup) :
    indexMatches (runStore msgs).1
      ∧ List.Sublist (recentIds (runStore msgs).1) (msgsIds msgs)
      ∧ (runStore msgs).1.recentMessages.length ≤ MAX_RECENT
      ∧ (∀ e ∈ (runStore msgs).2, ∀ i, idTruthy e.id = some i →
          i ∉ recentIds (runStore msgs).1) := by
  have hbase : (recentIds emptyStore ++ msgsIds msgs).Nodup := by
    simpa [recentIds, emptyStore] using hnd
  have hmatch : indexMatches emptyStore := by
    intro i
    simp [emptyStore, recentIds, mapGet]
  have hlen0 : emptyStore.recentMessages.length ≤ MAX_RECENT := by
    simp [emptyStore]
  obtain ⟨fA, fB, fC, fD⟩ := runStoreFrom_inv msgs emptyStore hbase hmatch hlen0
  exact ⟨fA, by simpa [recentIds, emptyStore] using fB, fC, fD⟩

/-- C1: confirmed, under the spec's data-model assumption that message ids are
unique per message (the appended truthy ids are pairwise distinct). For every such
sequence of appends from boot: the history length never exceeds `MAX_RECENT` at the
end of any append; eviction is strict FIFO — whenever an append evicts, the evicted
record is exactly the head (oldest) of the history, and eviction happens exactly at
capacity; and `lookupById` (the index lookup) returns absent for every evicted id. -/
theorem c1_bounded_fifo_eviction (msgs : List (WAMsg × Nat)) (hnd : (msgsIds msgs).Nodup) :
    (runStore msgs).1.recentMessages.length ≤ MAX_RECENT
      ∧ (∀ (st : MsgStore) (m : WAMsg) (t : Nat), st.recentMessages.length ≤ MAX_RECENT →
          (appendStore st m t).2 =
            if st.recentMessages.length = MAX_RECENT then st.recentMessages.head? else none)
      ∧ (∀ e ∈ (runStore msgs).2, ∀ i, idTruthy e.id = some i →
          mapGet (runStore msgs).1.msgIndex i = none) := by
  obtain ⟨fA, _fB, fC, fD⟩ := runStore_inv msgs hnd
  refine ⟨fC, ?_, ?_⟩
  · intro st m t hlen
    rcases Nat.lt_or_ge st.recentMessages.length MAX_RECENT with hsm | hfull
    · rw [appendStore_of_small st m t hsm]
      have hne : st.recentMessages.length ≠ MAX_RECENT := by omega
      simp [hne]
    · have heq : st.recentMessages.length = MAX_RECENT := le_antisymm hlen hfull
      obtain ⟨rec, idx⟩ := st
      rcases hrec : rec with _ | ⟨r, rs⟩
      · rw [hrec, List.length_nil] at heq
        exact absurd heq.symm (by decide)
      · subst hrec
        rw [appendStore_of_full r rs idx m t hfull]
        simp only at heq
        simp [heq]
  · intro e he i hid
    have hnot := fD e he i hid
    have hiff := fA i
    rcases hget : mapGet (runStore msgs).1.msgIndex i with _ | v
    · rfl
    · exfalso
      have hsome : (mapGet (runStore msgs).1.msgIndex i).isSome = true := by
        rw [hget]
        rfl
      exact hnot (hiff.mp hsome)

/-- Concrete raw message carrying id "a", used by witnesses. -/
def wMsgA : WAMsg :=
  { key := some { id := some "a", remoteJid := some "111@s.whatsapp.net", fromMe := some false },
    message := none, pushName := none }

/-- Concrete raw message carrying id "b", used by witnesses. -/
def wMsgB : WAMsg :=
  { key := some { id := some "b", remoteJid := some "222@s.whatsapp.net", fromMe := some false },
    message := none, pushName := none }

/-- C1 witness: two appends with distinct ids. -/
theorem c1_bounded_fifo_eviction_witness :
    (msgsIds [(wMsgA, 0), (wMsgB, 1)]).Nodup
      ∧ ((runStore [(wMsgA, 0), (wMsgB, 1)]).1.recentMessages.length ≤ MAX_RECENT
        ∧ (∀ (st : MsgStore) (m : WAMsg) (t : Nat), st.recentMessages.length ≤ MAX_RECENT →
            (appendStore st m t).2 =
              if st.recentMessages.length = MAX_RECENT then st.recentMessages.head? else none)
        ∧ (∀ e ∈ (runStore [(wMsgA, 0), (wMsgB, 1)]).2, ∀ i, idTruthy e.id = some i →
            mapGet (runStore [(wMsgA, 0), (wMsgB, 1)]).1.msgIndex i = none)) :=
  ⟨by decide, c1_bounded_fifo_eviction [(wMsgA, 0), (wMsgB, 1)] (by decide)⟩

/-- C5 amended claim: corrected. For every sequence of appends whose present
(truthy) ids are pairwise distinct, an id has exactly one record in the ordered
history exactly when the lookup index resolves it. The distinctness hypothesis is
forced: appending two records carrying the same id leaves TWO records with that id
in the ordered history (the code never deduplicates), refuting the claim's
parenthetical. -/
theorem c5_unique_record_per_id (msgs : List (WAMsg × Nat)) (hnd : (msgsIds msgs).Nodup)
    (i : String) :
    ((runStore msgs).1.recentMessages.countP (fun it => decide (idTruthy it.id = some i)) = 1
      ↔ (mapGet (runStore msgs).1.msgIndex i).isSome = true) := by
  obtain ⟨fA, fB, _, _⟩ := runStore_inv msgs hnd
  have hNd : (recentIds (runStore msgs).1).Nodup := List.Nodup.sublist fB hnd
  rw [countP_eq_count_filterMap, fA i]
  simp only [recentIds] at hNd ⊢
  constructor
  · intro h
    exact List.count_pos_iff.mp (by omega)
  · intro h
    exact List.count_eq_one_of_mem hNd h

/-- C5 witness: two appends with distinct ids, queried at id "a". -/
theorem c5_unique_record_per_id_witness :
    (msgsIds [(wMsgA, 0), (wMsgB, 1)]).Nodup
      ∧ ((runStore [(wMsgA, 0), (wMsgB, 1)]).1.recentMessages.countP
            (fun it => decide (idTruthy it.id = some "a")) = 1
          ↔ (mapGet (runStore [(wMsgA, 0), (wMsgB, 1)]).1.msgIndex "a").isSome = true) :=
  ⟨by decide, c5_unique_record_per_id [(wMsgA, 0), (wMsgB, 1)] (by decide) "a"⟩

/-- C5 counterexample: appending two records that both carry id "a" leaves the
ordered history with TWO records for that id while the index still resolves it —
the claimed "exactly one record with that id in the ordered history" is false for
duplicate-id appends. -/
theorem c5_cex_duplicate_id_two_records :
    ((runStore [(wMsgA, 0), (wMsgA, 1)]).1.recentMessages.countP
        (fun it => decide (idTruthy it.id = some "a"))) = 2
      ∧ (mapGet (runStore [(wMsgA, 0), (wMsgA, 1)]).1.msgIndex "a").isSome = true := by
  constructor <;> decide

/-! Lemmas for the recordInbound / messages.upsert pipeline. -/

theorem recordInbound_store_eq (url : String) (st : ServerState) (m : WAMsg) (t : Nat) :
    (recordInbound url st m t).store = (appendStore st.store m t).1 := by
  simp only [recordInbound]
  split
  · split <;> rfl
  · rfl

theorem appendStore_getLast (st : MsgStore) (m : WAMsg) (t : Nat) :
    (appendStore st m t).1.recentMessages.getLast? = some (mkItem m t) := by
  obtain ⟨rec, idx⟩ := st
  rcases Nat.lt_or_ge rec.length MAX_RECENT with hsm | hfull
  · rw [appendStore_of_small ⟨rec, idx⟩ m t hsm]
    exact List.getLast?_concat rec
  · rcases hrec : rec with _ | ⟨r, rs⟩
    · rw [hrec, List.length_nil] at hfull
      exact absurd hfull (by decide)
    · subst hrec
      rw [appendStore_of_full r rs idx m t hfull]
      exact List.getLast?_concat rs

theorem appendStore_no_new_index (st : MsgStore) (m : WAMsg) (t : Nat)
    (hm : idTruthy (msgId m) = none) (i : String)
    (h : (mapGet (appendStore st m t).1.msgIndex i).isSome = true) :
    (mapGet st.msgIndex i).isSome = true := by
  obtain ⟨rec, idx⟩ := st
  rcases Nat.lt_or_ge rec.length MAX_RECENT with hsm | hfull
  · rw [appendStore_of_small ⟨rec, idx⟩ m t hsm] at h
    rw [mapGet_idxAdd_isSome] at h
    rcases h with h | h
    · exact h
    · rw [mkItem_id, hm] at h
      simp at h
  · rcases hrec : rec with _ | ⟨r, rs⟩
    · rw [hrec, List.length_nil] at hfull
      exact absurd hfull (by decide)
    · subst hrec
      rw [appendStore_of_full r rs idx m t hfull] at h
      rw [mapGet_idxDel_isSome, mapGet_idxAdd_isSome] at h
      rcases h.1 with h1 | h1
      · exact h1
      · rw [mkItem_id, hm] at h1
        simp at h1

/-- C10: confirmed. Recording an inbound message is total at the handler boundary:
the messages.upsert handler processes every message of a notify batch in order with
no early abort (folding a concatenated batch equals folding its parts in sequence,
whatever recordInbound did internally — including a throwing subscriber write, which
recordInbound's catch swallows); the history/index update always happens exactly as
`appendStore` describes, regardless of broadcast or webhook outcome; and a malformed
event with missing `key` and `message` fields is still appended (as the last history
record, with null/absent fields, `fromMe` false and messageType `unknown`) while
creating no new lookup-index entry. -/
theorem c10_record_inbound_total (url : String) :
    (∀ (st : ServerState) (ms1 ms2 : List (WAMsg × Nat)),
        upsertHandler url st "notify" (some (ms1 ++ ms2)) =
          upsertHandler url (upsertHandler url st "notify" (some ms1)) "notify" (some ms2))
      ∧ (∀ (st : ServerState) (m : WAMsg) (t : Nat),
          (recordInbound url st m t).store = (appendStore st.store m t).1)
      ∧ (∀ (st : ServerState) (t : Nat),
          (recordInbound url st ⟨none, none, none⟩ t).store.recentMessages.getLast? =
              some (mkItem ⟨none, none, none⟩ t)
            ∧ mkItem ⟨none, none, none⟩ t =
                { id := none, remoteJid := none, fromMe := false, pushName := none,
                  timestamp := t, text := none, messageType := some "unknown",
                  raw := ⟨none, none, none⟩ }
            ∧ (∀ i,
                (mapGet (recordInbound url st ⟨none, none, none⟩ t).store.msgIndex i).isSome =
                    true →
                  (mapGet st.store.msgIndex i).isSome = true)) := by
  refine ⟨?_, recordInbound_store_eq url, ?_⟩
  · intro st ms1 ms2
    simp [upsertHandler, List.foldl_append]
  · intro st t
    refine ⟨?_, rfl, ?_⟩
    · rw [recordInbound_store_eq]
      exact appendStore_getLast st.store ⟨none, none, none⟩ t
    · intro i h
      rw [recordInbound_store_eq] at h
      exact appendStore_no_new_index st.store ⟨none, none, none⟩ t rfl i h

/-- Concrete server state used by the C10 witness: one stored record with id "a". -/
def wState : ServerState :=
  { store := { recentMessages := [mkItem wMsgA 0], msgIndex := [("a", wMsgA)] },
    subs := [], webhookAttempts := [] }

/-- C10 witness: the batch-splitting identity at a concrete state and batch, and the
no-new-index-entry implication discharged at a concrete malformed append. -/
theorem c10_record_inbound_total_witness :
    upsertHandler "" wState "notify" (some ([(wMsgA, 0)] ++ [(wMsgB, 1)])) =
        upsertHandler "" (upsertHandler "" wState "notify" (some [(wMsgA, 0)])) "notify"
          (some [(wMsgB, 1)])
      ∧ (mapGet wState.store.msgIndex "a").isSome = true :=
  ⟨(c10_record_inbound_total "").1 wState [(wMsgA, 0)] [(wMsgB, 1)],
   ((c10_record_inbound_total "").2.2 wState 7).2.2 "a" (by decide)⟩
